import Mathlib

/-!
Verification of the TBME generation pipeline (`ncci/tbme.py`).

The single source file `src/ncci/tbme.py` defines `generate_tbme(task, postfix)`,
which compiles a task configuration into an ordered line sequence for the
external `h2mixer` tool.  The helper modules it imports (`modes`, `utils`,
`environ`, `operators`, `mcscript`) are not part of the repository snapshot;
they are modelled from the specification where needed and are marked as such.
The control flow, branching, data accumulation and line assembly of
`generate_tbme` itself are translated directly from the source.

Machine reals (Python floats) are modelled as rationals; Python dicts
(insertion ordered) are modelled as association lists with ordered-dict
insert/update semantics; raised exceptions are modelled with `Except`.
-/

set_option maxRecDepth 100000

namespace NcciTbme

/-- Basis modes, translated from the enumeration consumed by the source
(`modes.BasisMode`): direct reuse, frequency-dilated reuse, or the fully
general transformed basis. -/
inductive BasisMode where
  | kDirect
  | kDilated
  | kGeneric
deriving Repr, DecidableEq

/-- Rendering of a basis-mode value as it appears in formatted error text. -/
def BasisMode.str : BasisMode → String
  | .kDirect => "BasisMode.kDirect"
  | .kDilated => "BasisMode.kDilated"
  | .kGeneric => "BasisMode.kGeneric"

/-- Single-particle truncation modes consumed by the source
(`modes.SingleParticleTruncationMode`): Nmax-based, or weight-based
(triangular). -/
inductive SingleParticleTruncationMode where
  | kNmax
  | kTriangular
deriving Repr, DecidableEq

/-- Many-body truncation modes consumed by the source
(`modes.ManyBodyTruncationMode`). -/
inductive ManyBodyTruncationMode where
  | kNmax
  | kWeightMax
  | kFCI
deriving Repr, DecidableEq

/-- Rendering of a many-body truncation mode as it appears in formatted
error text. -/
def ManyBodyTruncationMode.str : ManyBodyTruncationMode → String
  | .kNmax => "ManyBodyTruncationMode.kNmax"
  | .kWeightMax => "ManyBodyTruncationMode.kWeightMax"
  | .kFCI => "ManyBodyTruncationMode.kFCI"

/-- A normalized two-body truncation bound: either a (one-body, two-body)
weight pair, or the one-body-only sentinel written with the tag string
"ob".  This is the tuple handed to `utils.weight_max_string` in the source. -/
inductive WeightTuple where
  | pair (w1 w2 : ℚ)
  | ob (w1 : ℚ)
deriving Repr, DecidableEq

/-- Errors raised by the pipeline: explicitly raised script errors
(`mcscript.exception.ScriptError`) and mapping-lookup failures
(Python `KeyError`). -/
inductive ScriptErr where
  | scriptError (msg : String)
  | keyError (key : String)
deriving Repr, DecidableEq

/-- Message text carried by an error, as surfaced to the caller. -/
def errMsg : ScriptErr → String
  | .scriptError m => m
  | .keyError k => "KeyError: " ++ k

/-- A two-body operator: an ordered mapping from source-id to coefficient,
modelled as an association list in insertion order. -/
abbrev Operator := List (String × ℚ)

/-- Descriptor for how the mixer obtains matrix elements for a source-id:
a built-in (no fields), or an input file with an optional basis-transform
file and transform truncation.  Field names follow the keyword arguments
used at the `operators.TwoBodyOperatorSource` construction sites in the
source. -/
structure TwoBodyOperatorSource where
  filename : Option String := none
  xform_filename : Option String := none
  xform_truncation : Option WeightTuple := none
deriving Repr, DecidableEq

/-- The truncation-parameter mapping; keys present depend on the mode
combination, so every field is optional and a missing key models a Python
`KeyError` on access. -/
structure TruncationParameters where
  Nv : Option ℕ := none
  Nmax : Option ℕ := none
  sp_weight_max : Option ℚ := none
  mb_weight_max : Option ℚ := none
deriving Repr, DecidableEq

/-- Access to the "Nv" truncation parameter (`truncation_parameters["Nv"]`). -/
def TruncationParameters.getNv (tp : TruncationParameters) : Except ScriptErr ℕ :=
  match tp.Nv with
  | some v => .ok v
  | none => .error (.keyError "Nv")

/-- Access to the "Nmax" truncation parameter. -/
def TruncationParameters.getNmax (tp : TruncationParameters) : Except ScriptErr ℕ :=
  match tp.Nmax with
  | some v => .ok v
  | none => .error (.keyError "Nmax")

/-- Access to the "sp_weight_max" truncation parameter. -/
def TruncationParameters.getSpWeightMax (tp : TruncationParameters) : Except ScriptErr ℚ :=
  match tp.sp_weight_max with
  | some v => .ok v
  | none => .error (.keyError "sp_weight_max")

/-- Access to the "mb_weight_max" truncation parameter. -/
def TruncationParameters.getMbWeightMax (tp : TruncationParameters) : Except ScriptErr ℚ :=
  match tp.mb_weight_max with
  | some v => .ok v
  | none => .error (.keyError "mb_weight_max")

/-- The task configuration consumed by `generate_tbme`.  Keys read with
`task[...]` in the source are required fields; keys read with `task.get(...)`
are optional fields. -/
structure Task where
  nuclide : List ℕ
  a_cm : ℚ
  hw : ℚ
  hw_cm : Option ℚ := none
  hw_int : ℚ
  hw_coul : ℚ
  hw_coul_rescaled : Option ℚ := none
  xform_truncation_int : Option WeightTuple := none
  xform_truncation_coul : Option WeightTuple := none
  truncation_int : WeightTuple
  truncation_coul : WeightTuple
  basis_mode : BasisMode
  use_coulomb : Bool
  hamiltonian : Option Operator := none
  tb_observables : List (String × Operator) := []
  observable_sets : List String := []
  sp_truncation_mode : SingleParticleTruncationMode
  mb_truncation_mode : ManyBodyTruncationMode
  truncation_parameters : TruncationParameters := {}
  target_truncation : Option WeightTuple := none
  interaction : String
  interaction_file : Option String := none
  coulomb_file : Option String := none
  tbme_sources : Option (List (String × TwoBodyOperatorSource)) := none
  h2_format : ℕ
deriving Repr, DecidableEq

/-- Mass number `A = sum(task["nuclide"])`. -/
def mass_number (task : Task) : ℕ := task.nuclide.sum

/-- Effective `hw_cm` (defaults to `hw`). -/
def hw_cm_of (task : Task) : ℚ := task.hw_cm.getD task.hw

/-- Effective `hw_coul_rescaled` (defaults to `hw`). -/
def hw_coul_rescaled_of (task : Task) : ℚ := task.hw_coul_rescaled.getD task.hw

/-- Effective `xform_truncation_int` (defaults to `truncation_int`). -/
def xform_truncation_int_of (task : Task) : WeightTuple :=
  task.xform_truncation_int.getD task.truncation_int

/-- Effective `xform_truncation_coul` (defaults to `truncation_coul`). -/
def xform_truncation_coul_of (task : Task) : WeightTuple :=
  task.xform_truncation_coul.getD task.truncation_coul

namespace utils

/-- Modelled from the spec: `utils.weight_max_string` is not under src/; the
spec describes the truncation bound as "opaque to downstream consumers beyond
formatting into the script", so the formatter renders the tuple fields in
order, with the "ob" sentinel tag for the one-body-only form. -/
def weight_max_string : WeightTuple → String
  | .pair w1 w2 => toString w1 ++ " " ++ toString w2
  | .ob w1 => "ob " ++ toString w1

end utils

/-- The Truncation Resolver, translated from the source (tbme.py lines
127-156).  The source computes the formatted string in each branch; here the
structured tuple is returned and formatting is applied at the single point of
use, which is equivalent since `weight_max_string` is a function.  Branch
structure and parameter-access order follow the source exactly. -/
def resolve_truncation (task : Task) : Except ScriptErr WeightTuple :=
  match task.target_truncation with
  | some t =>
      -- given value
      .ok t
  | none =>
      -- automatic derivation
      let tp := task.truncation_parameters
      match task.sp_truncation_mode with
      | .kNmax =>
          match task.mb_truncation_mode with
          | .kNmax => do
              let nv ← tp.getNv
              let nmax ← tp.getNmax
              .ok (.pair ((nv : ℚ) + (nmax : ℚ)) (2 * (nv : ℚ) + (nmax : ℚ)))
          | .kFCI => do
              let nmax ← tp.getNmax
              .ok (.ob (nmax : ℚ))
          | mb =>
              .error (.scriptError ("invalid mb_truncation_mode " ++ mb.str))
      | .kTriangular =>
          match task.mb_truncation_mode with
          | .kFCI => do
              let w1 ← tp.getSpWeightMax
              .ok (.ob w1)
          | _ => do
              let w1 ← tp.getSpWeightMax
              let wmb ← tp.getMbWeightMax
              let w2 := min wmb (2 * w1)
              .ok (.pair w1 w2)

/-- The documented truncation formula table, written from the specification's
four truncation-mode combinations (spec section 4.2); `none` for a mode
combination the specification does not document.  This definition follows the
spec's words and is compared against the source-derived resolver. -/
def documented_bound (sp : SingleParticleTruncationMode)
    (mb : ManyBodyTruncationMode) (nv nmax : ℕ) (w1 wmb : ℚ) :
    Option WeightTuple :=
  match sp, mb with
  | .kNmax, .kNmax => some (.pair ((nv : ℚ) + (nmax : ℚ)) (2 * (nv : ℚ) + (nmax : ℚ)))
  | .kNmax, .kFCI => some (.ob (nmax : ℚ))
  | .kTriangular, .kFCI => some (.ob w1)
  | .kTriangular, .kWeightMax => some (.pair w1 (min wmb (2 * w1)))
  | _, _ => none

/-- C1: for every task with no explicit target_truncation whose truncation
parameters are all present, on each of the four documented mode combinations
the resolver's output bound equals the documented formula: (sp=Nmax, mb=Nmax)
gives bounds (Nv+Nmax, 2*Nv+Nmax); (sp=Nmax, mb=FCI) gives the "ob" sentinel
at Nmax; (sp=weight-based, mb=FCI) gives the "ob" sentinel at the one-body
weight ceiling; (sp=weight-based, mb=weight-based) gives two-body bound
min(mb_weight_max, 2*sp_weight_max). -/
theorem c1_truncation_formulas (task : Task) (nv nmax : ℕ) (w1 wmb : ℚ)
    (b : WeightTuple)
    (htt : task.target_truncation = none)
    (hp : task.truncation_parameters =
      { Nv := some nv, Nmax := some nmax,
        sp_weight_max := some w1, mb_weight_max := some wmb })
    (hdoc : documented_bound task.sp_truncation_mode task.mb_truncation_mode
      nv nmax w1 wmb = some b) :
    resolve_truncation task = .ok b := by
  unfold resolve_truncation
  rw [htt, hp]
  revert hdoc
  unfold documented_bound
  cases hsp : task.sp_truncation_mode <;> cases hmb : task.mb_truncation_mode <;>
    intro hdoc <;>
    simp_all [TruncationParameters.getNv, TruncationParameters.getNmax,
      TruncationParameters.getSpWeightMax, TruncationParameters.getMbWeightMax,
      Bind.bind, Except.bind]

/-- Witness for C1 at the spec's own example: valence-N = 0, Nmax = 2 under
(sp=Nmax, mb=Nmax) resolves to the bound pair (2, 2). -/
theorem c1_truncation_formulas_witness :
    resolve_truncation
      { nuclide := [2, 2], a_cm := 0, hw := 20, hw_int := 20, hw_coul := 20,
        truncation_int := .pair 10 20, truncation_coul := .pair 10 20,
        basis_mode := .kDirect, use_coulomb := true,
        sp_truncation_mode := .kNmax, mb_truncation_mode := .kNmax,
        truncation_parameters :=
          { Nv := some 0, Nmax := some 2,
            sp_weight_max := some 2, mb_weight_max := some 4 },
        interaction := "JISP16", h2_format := 15099 } = .ok (.pair 2 2) := by
  have h := c1_truncation_formulas
    { nuclide := [2, 2], a_cm := 0, hw := 20, hw_int := 20, hw_coul := 20,
      truncation_int := .pair 10 20, truncation_coul := .pair 10 20,
      basis_mode := .kDirect, use_coulomb := true,
      sp_truncation_mode := .kNmax, mb_truncation_mode := .kNmax,
      truncation_parameters :=
        { Nv := some 0, Nmax := some 2,
          sp_weight_max := some 2, mb_weight_max := some 4 },
      interaction := "JISP16", h2_format := 15099 }
    0 2 2 4 (.pair 2 2) rfl rfl (by norm_num [documented_bound])
  simpa using h

/-- C2 counterexample input: a task whose mode pair (sp=weight-based,
mb=Nmax) is not one of the four documented combinations, with weight
parameters present. -/
def c2_fallthrough_task : Task :=
  { nuclide := [2, 2], a_cm := 0, hw := 20, hw_int := 20, hw_coul := 20,
    truncation_int := .pair 10 20, truncation_coul := .pair 10 20,
    basis_mode := .kDirect, use_coulomb := true,
    sp_truncation_mode := .kTriangular, mb_truncation_mode := .kNmax,
    truncation_parameters :=
      { sp_weight_max := some 2, mb_weight_max := some 10 },
    interaction := "JISP16", h2_format := 15099 }

/-- C2 counterexample: on the undocumented combination (sp=weight-based,
mb=Nmax) the resolver does not raise; it silently falls through to the
weight-based formula and produces the bound (2, min(10, 2*2)) = (2, 4),
refuting the claim that every non-documented mode pair is a fatal
configuration error. -/
theorem c2_counterexample :
    resolve_truncation c2_fallthrough_task = .ok (.pair 2 4) ∧
      ∀ e, resolve_truncation c2_fallthrough_task ≠ .error e := by
  have h : resolve_truncation c2_fallthrough_task = .ok (.pair 2 4) := by
    show Except.ok (WeightTuple.pair 2 (min 10 (2 * 2))) = _
    norm_num
  exact ⟨h, fun e he => by rw [h] at he; exact Except.noConfusion he⟩

/-- C2 (amended): among the mode combinations the spec leaves undocumented,
only (sp=Nmax, mb=weight-based) raises a fatal configuration error naming the
offending mode; (sp=weight-based, mb=Nmax) instead falls through to the
weight-based formula. -/
theorem c2_invalid_mode_error (task : Task)
    (htt : task.target_truncation = none)
    (hsp : task.sp_truncation_mode = .kNmax)
    (hmb : task.mb_truncation_mode = .kWeightMax) :
    resolve_truncation task =
      .error (.scriptError
        ("invalid mb_truncation_mode " ++ ManyBodyTruncationMode.kWeightMax.str)) := by
  unfold resolve_truncation
  rw [htt, hsp, hmb]

/-- Witness for C2's amended theorem at a concrete task. -/
theorem c2_invalid_mode_error_witness :
    resolve_truncation
      { nuclide := [2, 2], a_cm := 0, hw := 20, hw_int := 20, hw_coul := 20,
        truncation_int := .pair 10 20, truncation_coul := .pair 10 20,
        basis_mode := .kDirect, use_coulomb := true,
        sp_truncation_mode := .kNmax, mb_truncation_mode := .kWeightMax,
        truncation_parameters := { Nv := some 0, Nmax := some 2 },
        interaction := "JISP16", h2_format := 15099 } =
      .error (.scriptError
        ("invalid mb_truncation_mode " ++ ManyBodyTruncationMode.kWeightMax.str)) :=
  c2_invalid_mode_error _ rfl rfl rfl

/-! ## String ordering

Python's `sorted` on strings is lexicographic by code point.  The comparison
below is written as plain structural recursion so that it evaluates inside
the kernel, and is proved total, transitive and antisymmetric so that sorting
normalizes any enumeration order of a set of ids (used for the determinism
property). -/

/-- Lexicographic comparison of char lists by code point. -/
def charsLe : List Char → List Char → Bool
  | [], _ => true
  | _ :: _, [] => false
  | c :: cs, d :: ds =>
      if c.val.toNat < d.val.toNat then true
      else if d.val.toNat < c.val.toNat then false
      else charsLe cs ds

/-- Lexicographic order on strings by code point, as a proposition. -/
def strLe (a b : String) : Prop := charsLe a.data b.data = true

instance : DecidableRel strLe := fun a b => by
  unfold strLe; infer_instance

theorem charsLe_cons_iff (c d : Char) (cs ds : List Char) :
    charsLe (c :: cs) (d :: ds) = true ↔
      (c.val.toNat < d.val.toNat ∨
        (c.val.toNat = d.val.toNat ∧ charsLe cs ds = true)) := by
  simp only [charsLe]
  by_cases h1 : c.val.toNat < d.val.toNat
  · simp [h1]
  · by_cases h2 : d.val.toNat < c.val.toNat
    · rw [if_neg h1, if_pos h2]
      constructor
      · intro hx
        exact Bool.noConfusion hx
      · rintro (h | ⟨h, _⟩) <;> omega
    · simp only [if_neg h1, if_neg h2]
      constructor
      · intro hx
        exact Or.inr ⟨by omega, hx⟩
      · rintro (h | ⟨h, hx⟩)
        · omega
        · exact hx

theorem charsLe_total (x y : List Char) : charsLe x y = true ∨ charsLe y x = true := by
  induction x generalizing y with
  | nil => left; rfl
  | cons c cs ih =>
      cases y with
      | nil => right; rfl
      | cons d ds =>
          rw [charsLe_cons_iff, charsLe_cons_iff]
          rcases Nat.lt_trichotomy c.val.toNat d.val.toNat with h | h | h
          · exact Or.inl (Or.inl h)
          · rcases ih ds with h2 | h2
            · exact Or.inl (Or.inr ⟨h, h2⟩)
            · exact Or.inr (Or.inr ⟨h.symm, h2⟩)
          · exact Or.inr (Or.inl h)

theorem charsLe_trans (x y z : List Char) (hxy : charsLe x y = true)
    (hyz : charsLe y z = true) : charsLe x z = true := by
  induction x generalizing y z with
  | nil => rfl
  | cons c cs ih =>
      cases y with
      | nil => simp [charsLe] at hxy
      | cons d ds =>
          cases z with
          | nil => simp [charsLe] at hyz
          | cons e es =>
              rw [charsLe_cons_iff] at hxy hyz ⊢
              rcases hxy with h1 | ⟨h1, hx⟩
              · rcases hyz with h2 | ⟨h2, _⟩
                · exact Or.inl (by omega)
                · exact Or.inl (by omega)
              · rcases hyz with h2 | ⟨h2, hy⟩
                · exact Or.inl (by omega)
                · exact Or.inr ⟨by omega, ih ds es hx hy⟩

theorem char_eq_of_toNat_eq {c d : Char} (h : c.val.toNat = d.val.toNat) : c = d :=
  Char.eq_of_val_eq (UInt32.ext h)

theorem charsLe_antisymm (x y : List Char) (hxy : charsLe x y = true)
    (hyx : charsLe y x = true) : x = y := by
  induction x generalizing y with
  | nil =>
      cases y with
      | nil => rfl
      | cons d ds => simp [charsLe] at hyx
  | cons c cs ih =>
      cases y with
      | nil => simp [charsLe] at hxy
      | cons d ds =>
          rw [charsLe_cons_iff] at hxy hyx
          rcases hxy with h1 | ⟨h1, hx⟩
          · rcases hyx with h2 | ⟨h2, _⟩ <;> omega
          · rcases hyx with h2 | ⟨h2, hy⟩
            · omega
            · rw [char_eq_of_toNat_eq h1, ih ds hx hy]

instance : IsTotal String strLe :=
  ⟨fun a b => charsLe_total a.data b.data⟩

instance : IsTrans String strLe :=
  ⟨fun a b c => charsLe_trans a.data b.data c.data⟩

instance : IsAntisymm String strLe :=
  ⟨fun a b hab hba => by
    cases a with
    | mk xs =>
        cases b with
        | mk ys => exact congrArg String.mk (charsLe_antisymm xs ys hab hba)⟩

/-- Model of Python's `sorted(<set of ids>)`: deduplicate (set formation) and
sort lexicographically. -/
def sortedStrings (l : List String) : List String :=
  List.insertionSort strLe l.dedup

theorem sortedStrings_perm_dedup (l : List String) :
    List.Perm (sortedStrings l) l.dedup :=
  List.perm_insertionSort strLe l.dedup

theorem mem_sortedStrings {x : String} {l : List String} :
    x ∈ sortedStrings l ↔ x ∈ l := by
  rw [(sortedStrings_perm_dedup l).mem_iff, List.mem_dedup]

/-- Two enumerations of the same id set sort to the same list: this is the
normalization step that makes the emitted source order independent of set
iteration order. -/
theorem sortedStrings_eq_of_perm {l1 l2 : List String} (h : List.Perm l1 l2) :
    sortedStrings l1 = sortedStrings l2 :=
  List.eq_of_perm_of_sorted
    (((List.perm_insertionSort strLe l1.dedup).trans h.dedup).trans
      (List.perm_insertionSort strLe l2.dedup).symm)
    (List.sorted_insertionSort strLe l1.dedup)
    (List.sorted_insertionSort strLe l2.dedup)

/-! ## Ordered mappings

Python dicts preserve insertion order; assignment to an existing key updates
the value in place without moving the key.  `collections.OrderedDict` used
for the target set has the same insert/update behaviour. -/

/-- Keys of an association list, in order. -/
def keysOf {α : Type} (m : List (String × α)) : List String :=
  m.map Prod.fst

/-- Key-membership test (`k in d`). -/
def odContains {α : Type} (m : List (String × α)) (k : String) : Bool :=
  m.any (fun p => p.1 == k)

/-- Dict assignment `d[k] = v`: update in place if the key exists (keys are
unique in a dict, so updating the first binding is the dict update), else
append at the end. -/
def odInsert {α : Type} : List (String × α) → String → α → List (String × α)
  | [], k, v => [(k, v)]
  | p :: rest, k, v =>
      if p.1 == k then (p.1, v) :: rest else p :: odInsert rest k v

/-- Dict lookup `d[k]`, `none` modelling a `KeyError`. -/
def odLookup {α : Type} (m : List (String × α)) (k : String) : Option α :=
  (m.find? (fun p => p.1 == k)).map Prod.snd

/-- Last-binding lookup in a plain pair list: the value the final dict holds
for a key after assigning every pair in order. -/
def lookupLast {α : Type} : List (String × α) → String → Option α
  | [], _ => none
  | p :: rest, k =>
      match lookupLast rest k with
      | some v => some v
      | none => if p.1 == k then some p.2 else none

/-- Left-biased choice on options. -/
def orOption {α : Type} (a b : Option α) : Option α :=
  match a with
  | some v => some v
  | none => b

theorem odContains_iff {α : Type} (m : List (String × α)) (k : String) :
    odContains m k = true ↔ k ∈ keysOf m := by
  induction m with
  | nil => simp [odContains, keysOf]
  | cons p rest ih =>
      simp only [odContains, keysOf, List.any_cons, List.map_cons, List.mem_cons,
        Bool.or_eq_true, beq_iff_eq] at *
      constructor
      · rintro (h | h)
        · exact Or.inl h.symm
        · exact Or.inr (ih.mp h)
      · rintro (h | h)
        · exact Or.inl h.symm
        · exact Or.inr (ih.mpr h)

theorem keysOf_odInsert {α : Type} (m : List (String × α)) (k : String) (v : α) :
    keysOf (odInsert m k v) =
      if odContains m k then keysOf m else keysOf m ++ [k] := by
  induction m with
  | nil => simp [odInsert, odContains, keysOf]
  | cons p rest ih =>
      by_cases hp : p.1 == k
      · simp [odInsert, odContains, keysOf, hp]
      · have hins : odInsert (p :: rest) k v = p :: odInsert rest k v := by
          simp [odInsert, hp]
        have hcon : odContains (p :: rest) k = odContains rest k := by
          simp [odContains, hp]
        rw [hins, hcon]
        show p.1 :: keysOf (odInsert rest k v) = _
        rw [ih]
        by_cases hc : odContains rest k
        · rw [if_pos hc, if_pos hc]
          rfl
        · rw [if_neg hc, if_neg hc]
          rfl

theorem odLookup_odInsert_self {α : Type} (m : List (String × α)) (k : String)
    (v : α) : odLookup (odInsert m k v) k = some v := by
  induction m with
  | nil => simp [odInsert, odLookup, List.find?]
  | cons p rest ih =>
      by_cases hp : p.1 == k
      · simp [odInsert, odLookup, List.find?, hp]
      · simpa [odInsert, odLookup, List.find?, hp] using ih

theorem odLookup_odInsert_ne {α : Type} (m : List (String × α)) (k k2 : String)
    (v : α) (h : k2 ≠ k) : odLookup (odInsert m k v) k2 = odLookup m k2 := by
  induction m with
  | nil =>
      simp only [odInsert, odLookup, List.find?]
      rw [show ((k, v).1 == k2) = false from beq_eq_false_iff_ne.mpr (fun hh => h hh.symm)]
  | cons p rest ih =>
      by_cases hp : p.1 == k
      · have hpk : p.1 = k := by simpa using hp
        have h2 : (p.1 == k2) = false :=
          beq_eq_false_iff_ne.mpr (by rw [hpk]; exact fun hh => h hh.symm)
        have h3 : (k == k2) = false :=
          beq_eq_false_iff_ne.mpr (fun hh => h hh.symm)
        simp [odInsert, hpk, odLookup, List.find?, h2, h3]
      · simp only [odInsert, if_neg hp, odLookup, List.find?]
        by_cases hp2 : p.1 == k2
        · simp [hp2]
        · rw [show (p.1 == k2) = false from by simpa using hp2]
          exact ih

theorem odContains_odInsert {α : Type} (m : List (String × α)) (k k2 : String)
    (v : α) (h : odContains m k2 = true) :
    odContains (odInsert m k v) k2 = true := by
  rw [odContains_iff] at *
  rw [keysOf_odInsert]
  by_cases hc : odContains m k
  · rwa [if_pos hc]
  · rw [if_neg hc]
    exact List.mem_append_left _ h

theorem odLookup_foldl_odInsert {α : Type} (ovs : List (String × α))
    (m0 : List (String × α)) (k : String) :
    odLookup (ovs.foldl (fun m p => odInsert m p.1 p.2) m0) k =
      orOption (lookupLast ovs k) (odLookup m0 k) := by
  induction ovs generalizing m0 with
  | nil => rfl
  | cons p rest ih =>
      rw [List.foldl_cons, ih]
      show _ = orOption (lookupLast (p :: rest) k) _
      rw [show lookupLast (p :: rest) k =
          (match lookupLast rest k with
            | some v => some v
            | none => if p.1 == k then some p.2 else none) from rfl]
      cases hrest : lookupLast rest k with
      | some v => rfl
      | none =>
          show orOption none _ = _
          by_cases hp : p.1 == k
          · have hpk : p.1 = k := by simpa using hp
            rw [if_pos hp]
            show odLookup (odInsert m0 p.1 p.2) k = orOption (some p.2) (odLookup m0 k)
            rw [hpk, odLookup_odInsert_self]
            rfl
          · have hne : k ≠ p.1 := fun hh => by simp [hh] at hp
            rw [if_neg hp]
            show odLookup (odInsert m0 p.1 p.2) k = orOption none (odLookup m0 k)
            rw [odLookup_odInsert_ne _ _ _ _ hne]
            rfl

theorem lookupLast_isSome_of_mem {α : Type} (ovs : List (String × α))
    (k : String) (h : k ∈ keysOf ovs) : ∃ v, lookupLast ovs k = some v := by
  induction ovs with
  | nil => cases h
  | cons p rest ih =>
      show ∃ v, (match lookupLast rest k with
        | some v => some v
        | none => if p.1 == k then some p.2 else none) = some v
      cases hrest : lookupLast rest k with
      | some v => exact ⟨v, rfl⟩
      | none =>
          rcases List.mem_cons.mp h with hk | hmem
          · exact ⟨p.2, by rw [if_pos (by simp [hk])]⟩
          · obtain ⟨v, hv⟩ := ih hmem
            rw [hrest] at hv
            cases hv

theorem lookupLast_mem_of_isSome {α : Type} (ovs : List (String × α))
    (k : String) (v : α) (h : lookupLast ovs k = some v) : k ∈ keysOf ovs := by
  induction ovs generalizing v with
  | nil => cases h
  | cons p rest ih =>
      rw [show lookupLast (p :: rest) k =
          (match lookupLast rest k with
            | some w => some w
            | none => if p.1 == k then some p.2 else none) from rfl] at h
      cases hrest : lookupLast rest k with
      | some w =>
          exact List.mem_cons_of_mem _ (ih w hrest)
      | none =>
          rw [hrest] at h
          by_cases hp : p.1 == k
          · have hpk : p.1 = k := by simpa using hp
            rw [← hpk]
            show p.1 ∈ p.1 :: keysOf rest
            exact List.mem_cons_self _ _
          · rw [if_neg hp] at h
            cases h

/-! ## Operator algebra (`operators` module)

The `operators` module is not under src/.  Everything in this namespace is
modelled from the specification: operators are ordered mappings from
source-id to coefficient; constructors are pure functions of explicit
physical scalars; the concrete coefficient formulas are unspecified, so the
ones below are representative nonzero expressions of the arguments — no
claim depends on the numeric values, only on the source-id structure. -/

namespace operators

/-- Modelled from the spec: the fixed vocabulary of source-ids the mixer
computes natively (kinetic, radius-squared, angular-momentum and isospin
families); "VNN" and "VC_unscaled" are file-based, not built-in. -/
def k_h2mixer_builtin_operators : List String :=
  ["identity", "Ursqr", "Vr1r2", "Uksqr", "Vk1k2",
   "L2", "Sp2", "Sn2", "S2", "J2", "T2"]

/-- Modelled from the spec: user-supplied two-body operators are accepted
as-is (trusted input). -/
def TwoBodyOperator (op : Operator) : Operator := op

/-- Add a coefficient into an operator's ordered mapping, summing with an
existing term for the same source-id. -/
def opAddTerm (op : Operator) (k : String) (c : ℚ) : Operator :=
  if op.any (fun p => p.1 == k) then
    op.map (fun p => if p.1 == k then (p.1, p.2 + c) else p)
  else op ++ [(k, c)]

/-- Pointwise sum of two operators, left operand's ordering first. -/
def opAdd (a b : Operator) : Operator :=
  b.foldl (fun acc p => opAddTerm acc p.1 p.2) a

/-- Scalar multiple of an operator. -/
def opScale (c : ℚ) (op : Operator) : Operator :=
  op.map (fun p => (p.1, c * p.2))

/-- Modelled from the spec: relative kinetic energy, over the kinetic
built-in family. -/
def Trel (A : ℕ) (hw : ℚ) : Operator :=
  [("Uksqr", (1 - 1 / (A : ℚ)) * hw / 2), ("Vk1k2", -(hw / (A : ℚ)))]

/-- Modelled from the spec: center-of-mass kinetic energy (diagnostic). -/
def Tcm (A : ℕ) (hw : ℚ) : Operator :=
  [("Uksqr", hw / (2 * (A : ℚ))), ("Vk1k2", hw / (A : ℚ))]

/-- Modelled from the spec: center-of-mass number operator, built from the
identity, radius-squared and kinetic built-in families with
oscillator-ratio scaling. -/
def Ncm (A : ℕ) (bsqr : ℚ) : Operator :=
  [("identity", -(3 / 2 : ℚ)),
   ("Ursqr", bsqr / (2 * (A : ℚ))), ("Vr1r2", bsqr / (A : ℚ)),
   ("Uksqr", 1 / (2 * (A : ℚ) * bsqr)), ("Vk1k2", -(1 / ((A : ℚ) * bsqr)))]

/-- Modelled from the spec: mean-square relative radius. -/
def rrel2 (A : ℕ) (hw : ℚ) : Operator :=
  [("Ursqr", (1 - 1 / (A : ℚ)) / hw), ("Vr1r2", -(2 / ((A : ℚ) * hw)))]

/-- Modelled from the spec: the raw interaction as a target (diagnostic). -/
def VNN : Operator := [("VNN", 1)]

/-- Modelled from the spec: the Coulomb target is the unscaled Coulomb
source with the dilation scaling as its multiplicative coefficient. -/
def VC (bsqr_coul : ℚ) : Operator := [("VC_unscaled", bsqr_coul)]

/-- Modelled from the spec: orbital angular momentum squared. -/
def L2 : Operator := [("L2", 1)]

/-- Modelled from the spec: proton spin squared. -/
def Sp2 : Operator := [("Sp2", 1)]

/-- Modelled from the spec: neutron spin squared. -/
def Sn2 : Operator := [("Sn2", 1)]

/-- Modelled from the spec: total spin squared. -/
def S2 : Operator := [("S2", 1)]

/-- Modelled from the spec: total angular momentum squared. -/
def J2 : Operator := [("J2", 1)]

/-- Modelled from the spec: isospin squared. -/
def T2 : Operator := [("T2", 1)]

/-- Modelled from the spec: the Hamiltonian constructor composes Trel, the
a_cm-scaled Ncm (Lawson) term, VNN and, conditionally on use_coulomb, the
scaled Coulomb term. -/
def Hamiltonian (A : ℕ) (hw a_cm bsqr_intr : ℚ) (use_coulomb : Bool)
    (bsqr_coul : ℚ) : Operator :=
  let h := opAdd (Trel A hw) (opScale a_cm (Ncm A bsqr_intr))
  let h := opAdd h VNN
  if use_coulomb then opAdd h (VC bsqr_coul) else h

end operators

/-- Modelled from the spec: a mixer-specific declaration per source:
built-in, plain file-based, or transformed (file + transform truncation +
transform file). -/
def TwoBodyOperatorSource.get_h2mixer_line (s : TwoBodyOperatorSource)
    (id : String) : String :=
  match s.filename with
  | none => "define-source operator " ++ id
  | some f =>
      match s.xform_filename, s.xform_truncation with
      | some xf, some xt =>
          "define-source xform " ++ id ++ " " ++ f ++ " " ++
            utils.weight_max_string xt ++ " " ++ xf
      | _, _ => "define-source input " ++ id ++ " " ++ f

namespace environ

/-- Modelled from the spec: postfix-qualified orbitals file name from the
naming-service interface. -/
def orbitals_filename (pfx : String) : String :=
  "orbitals" ++ pfx ++ ".dat"

/-- Modelled from the spec: radial matrix-element file for an operator type
and power. -/
def radial_me_filename (pfx : String) (operator_type : String) (power : ℕ) :
    String :=
  "radial-me-" ++ operator_type ++ toString power ++ pfx ++ ".dat"

/-- Modelled from the spec: proton-neutron overlap file. -/
def radial_pn_olap_filename (pfx : String) : String :=
  "radial-pn-olap" ++ pfx ++ ".dat"

/-- Modelled from the spec: interaction-to-target basis transform file. -/
def radial_olap_int_filename (pfx : String) : String :=
  "radial-olap-int" ++ pfx ++ ".dat"

/-- Modelled from the spec: Coulomb-to-target basis transform file. -/
def radial_olap_coul_filename (pfx : String) : String :=
  "radial-olap-coul" ++ pfx ++ ".dat"

/-- Modelled from the spec: default interaction file from (interaction name,
truncation, frequency). -/
def interaction_filename (name : String) (truncation : WeightTuple) (hw : ℚ) :
    String :=
  name ++ "-" ++ utils.weight_max_string truncation ++ "-" ++ toString hw ++ ".bin"

end environ

/-! ## Target accumulation (tbme.py lines 68-113) -/

/-- The Hamiltonian target: the user-supplied operator if present and truthy
(a Python empty dict is falsy and falls back to the default), else the
default Hamiltonian built from the task's physical parameters
(tbme.py lines 72-78). -/
def hamiltonian_of (task : Task) : Operator :=
  let default := operators.Hamiltonian (mass_number task) task.hw task.a_cm
    (task.hw / hw_cm_of task) task.use_coulomb
    (hw_coul_rescaled_of task / task.hw_coul)
  match task.hamiltonian with
  | some h => if h.isEmpty then default else h
  | none => default

/-- User-phase entries: each tb_observable (basename, operator) becomes a
target keyed "tbme-" ++ basename with the operator accepted as-is
(tbme.py lines 81-83). -/
def user_entries (task : Task) : List (String × Operator) :=
  task.tb_observables.map
    (fun p => ("tbme-" ++ p.1, operators.TwoBodyOperator p.2))

/-- Targets after the Hamiltonian and user-observable phases
(tbme.py lines 69-83). -/
def base_targets (task : Task) : List (String × Operator) :=
  (user_entries task).foldl (fun t p => odInsert t p.1 p.2)
    (odInsert [] "tbme-H" (hamiltonian_of task))

/-- Derived-target phase: add tbme-rrel2 and tbme-Ncm only when the key is
not already present (tbme.py lines 85-91). -/
def derived_phase (task : Task) (t : List (String × Operator)) :
    List (String × Operator) :=
  let t1 := if odContains t "tbme-rrel2" then t
    else odInsert t "tbme-rrel2" (operators.rrel2 (mass_number task) task.hw)
  if odContains t1 "tbme-Ncm" then t1
  else odInsert t1 "tbme-Ncm"
    (operators.Ncm (mass_number task) (task.hw / hw_cm_of task))

/-- A sequence of conditional dict assignments: each step is (condition,
key, value); the assignment happens when the condition holds. -/
def condInsertList (t : List (String × Operator))
    (steps : List (Bool × String × Operator)) : List (String × Operator) :=
  steps.foldl (fun m s => if s.1 = true then odInsert m s.2.1 s.2.2 else m) t

/-- The conditional assignments of the observable-set phase
(tbme.py lines 93-113), in source order. -/
def observable_steps (task : Task) : List (Bool × String × Operator) :=
  let hcomp := decide ("H-components" ∈ task.observable_sets)
  let amsqr := decide ("am-sqr" ∈ task.observable_sets)
  [(hcomp, "tbme-Trel", operators.Trel (mass_number task) task.hw),
   (hcomp, "tbme-Tcm", operators.Tcm (mass_number task) task.hw),
   (hcomp, "tbme-VNN", operators.VNN),
   (hcomp && task.use_coulomb, "tbme-VC",
     operators.VC (hw_coul_rescaled_of task / task.hw_coul)),
   (amsqr, "tbme-L2", operators.L2),
   (amsqr, "tbme-Sp2", operators.Sp2),
   (amsqr, "tbme-Sn2", operators.Sn2),
   (amsqr, "tbme-S2", operators.S2),
   (amsqr, "tbme-J2", operators.J2),
   (decide ("isospin" ∈ task.observable_sets), "tbme-T2", operators.T2)]

/-- Optional observable-set phase (tbme.py lines 93-113). -/
def observable_phase (task : Task) (t : List (String × Operator)) :
    List (String × Operator) :=
  condInsertList t (observable_steps task)

/-- The full accumulated target set, in insertion order. -/
def targetsOf (task : Task) : List (String × Operator) :=
  observable_phase task (derived_phase task (base_targets task))

/-- The required-source set (tbme.py lines 115-117): the union of the
source-ids of all target operators.  The list below is one enumeration of
that set; every consumer either tests membership or sorts it first. -/
def requiredSourcesOf (targets : List (String × Operator)) : List String :=
  (targets.map (fun p => keysOf p.2)).flatten

/-! ## Source resolution (tbme.py lines 179-229) -/

/-- VNN source descriptor (tbme.py lines 186-202): the default interaction
file unless an explicit one is supplied; a plain file descriptor for the
direct basis mode, a transformed descriptor otherwise. -/
def VNN_source (task : Task) (pfx : String) : TwoBodyOperatorSource :=
  let f := task.interaction_file.getD
    (environ.interaction_filename task.interaction task.truncation_int task.hw_int)
  if task.basis_mode = BasisMode.kDirect then
    { filename := some f }
  else
    { filename := some f,
      xform_filename := some (environ.radial_olap_int_filename pfx),
      xform_truncation := some (xform_truncation_int_of task) }

/-- VC_unscaled source descriptor (tbme.py lines 208-223): like VNN, but the
plain-file branch applies to both the direct and the dilated basis modes. -/
def VC_source (task : Task) (pfx : String) : TwoBodyOperatorSource :=
  let f := task.coulomb_file.getD
    (environ.interaction_filename "VC" task.truncation_coul task.hw_coul)
  if task.basis_mode = BasisMode.kDirect ∨ task.basis_mode = BasisMode.kDilated then
    { filename := some f }
  else
    { filename := some f,
      xform_filename := some (environ.radial_olap_coul_filename pfx),
      xform_truncation := some (xform_truncation_coul_of task) }

/-- Default source descriptors (tbme.py lines 179-223): built-ins that are
required, in sorted order, then VNN and VC_unscaled when required.  `order`
is an enumeration of the required-source set. -/
def tbme_sources_default (task : Task) (pfx : String) (order : List String) :
    List (String × TwoBodyOperatorSource) :=
  let s0 := ((sortedStrings (operators.k_h2mixer_builtin_operators.filter
      (fun b => decide (b ∈ order)))).map
        (fun id => (id, ({} : TwoBodyOperatorSource)))).foldl
    (fun m p => odInsert m p.1 p.2) []
  let s1 := if "VNN" ∈ order then odInsert s0 "VNN" (VNN_source task pfx) else s0
  if "VC_unscaled" ∈ order then odInsert s1 "VC_unscaled" (VC_source task pfx)
  else s1

/-- Source descriptors after applying caller-supplied overrides by id
(tbme.py lines 225-229): each override is a dict assignment, a full
replacement of any default descriptor for the same id. -/
def tbme_sourcesOf (task : Task) (pfx : String) (order : List String) :
    List (String × TwoBodyOperatorSource) :=
  match task.tbme_sources with
  | none => tbme_sources_default task pfx order
  | some ovs => ovs.foldl (fun m p => odInsert m p.1 p.2)
      (tbme_sources_default task pfx order)

/-- Source-declaration emission (tbme.py lines 231-233): one line per
required source-id in sorted order; a missing descriptor raises a KeyError
naming the id. -/
def emit_sources : List String → List (String × TwoBodyOperatorSource) →
    Except ScriptErr (List String)
  | [], _ => .ok []
  | id :: rest, srcs =>
      match odLookup srcs id with
      | none => .error (.keyError id)
      | some s =>
          match emit_sources rest srcs with
          | .error e => .error e
          | .ok ls => .ok (s.get_h2mixer_line id :: ls)

/-! ## Script assembly (tbme.py lines 119-246) -/

/-- The fatal hw consistency message (tbme.py lines 62-66), carrying the
basis mode, hw and hw_int values. -/
def hw_mismatch_message (task : Task) : String :=
  "Using basis mode " ++ task.basis_mode.str ++ " but hw = " ++
    toString task.hw ++ " and hw_int = " ++ toString task.hw_int

/-- Modelled from the spec: the initial header comment echoes the input
configuration (diagnostic only, tbme.py line 123). -/
def task_comment (task : Task) : String :=
  "# task: " ++ reprStr task

/-- Modelled from the spec: coefficients are serialized in scientific
notation by the host formatter; the exact rendering is abstracted as a
deterministic function of the rational value. -/
def format_coefficient (c : ℚ) : String := toString c

/-- Radial operator declarations (tbme.py lines 167-172): for each operator
type r, k and power 1, 2. -/
def radial_lines (pfx : String) : List String :=
  ["define-radial-operator r 1 " ++ environ.radial_me_filename pfx "r" 1,
   "define-radial-operator r 2 " ++ environ.radial_me_filename pfx "r" 2,
   "define-radial-operator k 1 " ++ environ.radial_me_filename pfx "k" 1,
   "define-radial-operator k 2 " ++ environ.radial_me_filename pfx "k" 2]

/-- One target block (tbme.py lines 239-243): a define-target line, one
add-source line per term of the operator's mapping, and a blank separator. -/
def target_block (pfx basename : String) (op : Operator) : List String :=
  ("define-target work" ++ pfx ++ "/" ++ basename ++ ".bin") ::
    (op.map (fun q => "  add-source " ++ q.1 ++ " " ++ format_coefficient q.2) ++ [""])

/-- All target blocks, in target-set insertion order. -/
def target_lines (pfx : String) (targets : List (String × Operator)) :
    List String :=
  (targets.map (fun p => target_block pfx p.1 p.2)).flatten

/-- Final line assembly in the source's fixed order: header comment, global
directives, radial declarations, pn overlap, source declarations, target
blocks, terminal blank line. -/
def assemble (task : Task) (pfx : String) (twm : WeightTuple)
    (srcLines : List String) : List String :=
  task_comment task ::
  "" ::
  ("set-target-indexing " ++ environ.orbitals_filename pfx ++ " " ++
    utils.weight_max_string twm) ::
  "set-target-multipolarity 0 0 0" ::
  ("set-output-format " ++ toString task.h2_format) ::
  ("set-mass " ++ toString (mass_number task)) ::
  "" ::
  (radial_lines pfx ++ [""] ++
   ["define-pn-overlaps " ++ environ.radial_pn_olap_filename pfx, ""] ++
   srcLines ++ [""] ++
   target_lines pfx (targetsOf task) ++ [""])

/-- The compilation pipeline with the required-source set passed as an
explicit enumeration `order` (Python iterates a set; all uses below factor
through membership and sorting, which is what makes the output independent
of enumeration order).  Error precedence follows the source: the hw sanity
check (line 62), then truncation resolution (lines 127-156), then source
emission (lines 231-233). -/
def generate_tbme_with_order (task : Task) (pfx : String) (order : List String) :
    Except ScriptErr (List String) :=
  if task.basis_mode = BasisMode.kDirect ∧ task.hw ≠ task.hw_int then
    .error (.scriptError (hw_mismatch_message task))
  else
    match resolve_truncation task with
    | .error e => .error e
    | .ok twm =>
        match emit_sources (sortedStrings order) (tbme_sourcesOf task pfx order) with
        | .error e => .error e
        | .ok srcLines => .ok (assemble task pfx twm srcLines)

/-- The compiled script for a task: `generate_tbme` up to the point where the
lines are handed to the runner (the runner itself is excluded from the core). -/
def generate_tbme (task : Task) (pfx : String) : Except ScriptErr (List String) :=
  generate_tbme_with_order task pfx (requiredSourcesOf (targetsOf task))

/-- The source-resolution-and-emission phase alone, at the canonical
required-source enumeration. -/
def source_lines (task : Task) (pfx : String) : Except ScriptErr (List String) :=
  emit_sources (sortedStrings (requiredSourcesOf (targetsOf task)))
    (tbme_sourcesOf task pfx (requiredSourcesOf (targetsOf task)))

/-- Payload of a successful compilation (empty on error). -/
def okLines : Except ScriptErr (List String) → List String
  | .ok l => l
  | .error _ => []

/-! ## General helper lemmas -/

theorem odContains_of_odLookup {α : Type} (m : List (String × α)) (k : String)
    (v : α) (h : odLookup m k = some v) : odContains m k = true := by
  induction m with
  | nil => cases h
  | cons p rest ih =>
      by_cases hp : p.1 == k
      · simp [odContains, hp]
      · simp only [odLookup, List.find?] at h
        rw [show (p.1 == k) = false from by simpa using hp] at h
        simp only [odContains, List.any_cons, Bool.or_eq_true]
        exact Or.inr (by simpa [odContains] using ih h)

theorem odLookup_isSome_odInsert {α : Type} (m : List (String × α))
    (k k2 : String) (v : α) (h : ∃ s, odLookup m k2 = some s) :
    ∃ s, odLookup (odInsert m k v) k2 = some s := by
  by_cases hk : k2 = k
  · subst hk
    exact ⟨v, odLookup_odInsert_self _ _ _⟩
  · obtain ⟨s, hs⟩ := h
    exact ⟨s, by rw [odLookup_odInsert_ne _ _ _ _ hk]; exact hs⟩

theorem odLookup_odInsert_cases {α : Type} (m : List (String × α))
    (k k2 : String) (v s : α) (h : odLookup (odInsert m k v) k2 = some s) :
    k2 = k ∨ odLookup m k2 = some s := by
  by_cases hk : k2 = k
  · exact Or.inl hk
  · exact Or.inr (by rwa [odLookup_odInsert_ne _ _ _ _ hk] at h)

theorem odLookup_condInsert_ne {α : Type} (c : Prop) [Decidable c]
    (m : List (String × α)) (k k2 : String) (v : α) (h : k2 ≠ k) :
    odLookup (if c then odInsert m k v else m) k2 = odLookup m k2 := by
  by_cases hc : c
  · rw [if_pos hc, odLookup_odInsert_ne _ _ _ _ h]
  · rw [if_neg hc]

theorem keysOf_condInsert {α : Type} (c : Prop) [Decidable c]
    (m : List (String × α)) (k : String) (v : α) :
    ∃ suf, keysOf (if c then odInsert m k v else m) = keysOf m ++ suf ∧
      ∀ x ∈ suf, x = k := by
  by_cases hc : c
  · rw [if_pos hc, keysOf_odInsert]
    by_cases h2 : odContains m k
    · rw [if_pos h2]
      exact ⟨[], by simp, by simp⟩
    · rw [if_neg h2]
      exact ⟨[k], rfl, by simp⟩
  · rw [if_neg hc]
    exact ⟨[], by simp, by simp⟩

theorem keys_ext_trans {α : Type} {m0 m1 m2 : List (String × α)}
    {s1 s2 : List String} {P : String → Prop}
    (h1 : keysOf m1 = keysOf m0 ++ s1) (h2 : keysOf m2 = keysOf m1 ++ s2)
    (hp1 : ∀ x ∈ s1, P x) (hp2 : ∀ x ∈ s2, P x) :
    keysOf m2 = keysOf m0 ++ (s1 ++ s2) ∧ ∀ x ∈ s1 ++ s2, P x := by
  refine ⟨by rw [h2, h1, List.append_assoc], ?_⟩
  intro x hx
  rcases List.mem_append.mp hx with h | h
  · exact hp1 x h
  · exact hp2 x h

/-- Successful compilation decomposes into its phases: a resolved bound,
emitted source lines, and the assembled line list, under a passing hw check. -/
theorem generate_ok_iff (task : Task) (pfx : String) (l : List String)
    (h : generate_tbme task pfx = .ok l) :
    ¬ (task.basis_mode = BasisMode.kDirect ∧ task.hw ≠ task.hw_int) ∧
      ∃ twm srcs, resolve_truncation task = .ok twm ∧
        emit_sources (sortedStrings (requiredSourcesOf (targetsOf task)))
          (tbme_sourcesOf task pfx (requiredSourcesOf (targetsOf task))) = .ok srcs ∧
        l = assemble task pfx twm srcs := by
  revert h
  unfold generate_tbme generate_tbme_with_order
  by_cases hcond : task.basis_mode = BasisMode.kDirect ∧ task.hw ≠ task.hw_int
  · rw [if_pos hcond]
    intro h
    exact absurd h (by simp)
  · rw [if_neg hcond]
    cases hres : resolve_truncation task with
    | error e =>
        intro h
        exact absurd h (by simp)
    | ok twm =>
        cases hemit : emit_sources (sortedStrings (requiredSourcesOf (targetsOf task)))
            (tbme_sourcesOf task pfx (requiredSourcesOf (targetsOf task))) with
        | error e =>
            intro h
            exact absurd h (by simp)
        | ok srcs =>
            intro h
            refine ⟨hcond, twm, srcs, rfl, rfl, ?_⟩
            injection h with hh
            exact hh.symm

/-- The assembled lines end with the target blocks and the terminal blank. -/
theorem assemble_target_suffix (task : Task) (pfx : String) (twm : WeightTuple)
    (srcLines : List String) :
    ∃ pre, assemble task pfx twm srcLines =
      pre ++ target_lines pfx (targetsOf task) ++ [""] := by
  refine ⟨task_comment task ::
    "" ::
    ("set-target-indexing " ++ environ.orbitals_filename pfx ++ " " ++
      utils.weight_max_string twm) ::
    "set-target-multipolarity 0 0 0" ::
    ("set-output-format " ++ toString task.h2_format) ::
    ("set-mass " ++ toString (mass_number task)) ::
    "" ::
    (radial_lines pfx ++ [""] ++
     ["define-pn-overlaps " ++ environ.radial_pn_olap_filename pfx, ""] ++
     srcLines ++ [""]), ?_⟩
  simp [assemble, List.append_assoc]

/-! ## Claim C8: hw consistency check -/

/-- C8: for every task with basis mode direct and hw different from hw_int,
the pipeline raises a fatal configuration error before any script line is
produced, and the message carries the basis mode, hw and hw_int values. -/
theorem c8_hw_mismatch (task : Task) (pfx : String)
    (h1 : task.basis_mode = BasisMode.kDirect) (h2 : task.hw ≠ task.hw_int) :
    generate_tbme task pfx = .error (.scriptError (hw_mismatch_message task)) ∧
      errMsg (.scriptError (hw_mismatch_message task)) =
        "Using basis mode " ++ BasisMode.kDirect.str ++ " but hw = " ++
          toString task.hw ++ " and hw_int = " ++ toString task.hw_int ∧
      ∀ l, generate_tbme task pfx ≠ .ok l := by
  have he : generate_tbme task pfx =
      .error (.scriptError (hw_mismatch_message task)) := by
    unfold generate_tbme generate_tbme_with_order
    rw [if_pos ⟨h1, h2⟩]
  refine ⟨he, ?_, fun l hl => by rw [he] at hl; exact Except.noConfusion hl⟩
  show hw_mismatch_message task = _
  unfold hw_mismatch_message
  rw [h1]

/-- C8 witness input: direct basis mode with hw=20, hw_int=25. -/
def c8_task : Task :=
  { nuclide := [2, 2], a_cm := 20, hw := 20, hw_int := 25, hw_coul := 20,
    truncation_int := .pair 10 20, truncation_coul := .pair 10 20,
    basis_mode := .kDirect, use_coulomb := false,
    sp_truncation_mode := .kNmax, mb_truncation_mode := .kNmax,
    truncation_parameters := { Nv := some 0, Nmax := some 2 },
    interaction := "JISP16", h2_format := 15099 }

/-- Witness for C8. -/
theorem c8_hw_mismatch_witness :
    generate_tbme c8_task "" = .error (.scriptError (hw_mismatch_message c8_task)) ∧
      errMsg (.scriptError (hw_mismatch_message c8_task)) =
        "Using basis mode " ++ BasisMode.kDirect.str ++ " but hw = " ++
          toString c8_task.hw ++ " and hw_int = " ++ toString c8_task.hw_int ∧
      ∀ l, generate_tbme c8_task "" ≠ .ok l :=
  c8_hw_mismatch c8_task "" rfl (by norm_num [c8_task])

/-! ## Claim C5: explicit target truncation short-circuits resolution -/

/-- The task with its truncation modes and parameters replaced: used to
state that explicit target truncation makes the resolution-relevant fields
irrelevant. -/
def with_modes (task : Task) (m : SingleParticleTruncationMode)
    (m2 : ManyBodyTruncationMode) (p : TruncationParameters) : Task :=
  {task with
    sp_truncation_mode := m,
    mb_truncation_mode := m2,
    truncation_parameters := p}

/-- C5: for every task supplying an explicit target-truncation bound, the
compiled script's set-target-indexing line (line index 2) carries the
supplied bound verbatim after standard weight-max formatting, and replacing
the truncation modes and parameters by anything leaves compilation
successful with the same set-target-indexing line: the four-case resolution
is skipped entirely. -/
theorem c5_explicit_truncation (task : Task) (pfx : String) (t : WeightTuple)
    (m : SingleParticleTruncationMode) (m2 : ManyBodyTruncationMode)
    (p : TruncationParameters) (l : List String)
    (ht : task.target_truncation = some t)
    (hok : generate_tbme task pfx = .ok l) :
    l[2]? = some ("set-target-indexing " ++ environ.orbitals_filename pfx ++
        " " ++ utils.weight_max_string t) ∧
      ∃ l2, generate_tbme (with_modes task m m2 p) pfx = .ok l2 ∧
        l2[2]? = l[2]? := by
  obtain ⟨hcond, twm, srcs, hres, hemit, hl⟩ := generate_ok_iff task pfx l hok
  have htwm : twm = t := by
    unfold resolve_truncation at hres
    rw [ht] at hres
    injection hres with hh
    exact hh.symm
  subst htwm
  subst hl
  constructor
  · rfl
  · refine ⟨assemble (with_modes task m m2 p) pfx twm srcs, ?_, rfl⟩
    have hcond2 : ¬ ((with_modes task m m2 p).basis_mode = BasisMode.kDirect ∧
        (with_modes task m m2 p).hw ≠ (with_modes task m m2 p).hw_int) := hcond
    have hres2 : resolve_truncation (with_modes task m m2 p) = .ok twm := by
      unfold resolve_truncation
      rw [show (with_modes task m m2 p).target_truncation = some twm from ht]
    have hemit2 : emit_sources
        (sortedStrings (requiredSourcesOf (targetsOf (with_modes task m m2 p))))
        (tbme_sourcesOf (with_modes task m m2 p) pfx
          (requiredSourcesOf (targetsOf (with_modes task m m2 p)))) =
        .ok srcs := hemit
    unfold generate_tbme generate_tbme_with_order
    rw [if_neg hcond2, hres2, hemit2]

/-- C5 witness input: explicit target truncation (6, 6) with all operator
coefficients literal. -/
def c5_task : Task :=
  { nuclide := [2, 2], a_cm := 20, hw := 20, hw_int := 20, hw_coul := 20,
    truncation_int := .pair 10 20, truncation_coul := .pair 10 20,
    basis_mode := .kDirect, use_coulomb := false,
    hamiltonian := some [("VNN", 1)],
    tb_observables := [("rrel2", [("Ursqr", 1)]), ("Ncm", [("identity", 1)])],
    sp_truncation_mode := .kNmax, mb_truncation_mode := .kNmax,
    target_truncation := some (.pair 6 6),
    interaction := "JISP16", h2_format := 15099 }

/-- Witness for C5. -/
theorem c5_explicit_truncation_witness :
    ∃ l, generate_tbme c5_task "" = .ok l ∧
      (l[2]? = some ("set-target-indexing " ++ environ.orbitals_filename "" ++
          " " ++ utils.weight_max_string (.pair 6 6)) ∧
        ∃ l2, generate_tbme (with_modes c5_task .kTriangular .kFCI {}) "" = .ok l2 ∧
          l2[2]? = l[2]?) := by
  refine ⟨okLines (generate_tbme c5_task ""), rfl, ?_⟩
  exact c5_explicit_truncation c5_task "" (.pair 6 6) .kTriangular .kFCI {} _ rfl rfl

/-! ## Claim C7: caller-supplied source overrides fully replace defaults -/

/-- C7: for every task with caller-supplied source overrides and every
enumeration of the required-source set, the final descriptor for an
overridden id is exactly the caller-supplied descriptor (the last binding
for that id), not a merge with the default. -/
theorem c7_overrides_replace (task : Task) (pfx : String) (order : List String)
    (ovs : List (String × TwoBodyOperatorSource)) (id : String)
    (hovs : task.tbme_sources = some ovs)
    (hmem : id ∈ keysOf ovs) :
    odLookup (tbme_sourcesOf task pfx order) id = lookupLast ovs id ∧
      ∃ s, lookupLast ovs id = some s := by
  obtain ⟨s, hs⟩ := lookupLast_isSome_of_mem ovs id hmem
  refine ⟨?_, s, hs⟩
  unfold tbme_sourcesOf
  rw [hovs]
  show odLookup (ovs.foldl (fun m p => odInsert m p.1 p.2)
    (tbme_sources_default task pfx order)) id = lookupLast ovs id
  rw [odLookup_foldl_odInsert, hs]
  rfl

/-- C7 witness input: an override for VNN replacing the default descriptor
with a bare custom file. -/
def c7_task : Task :=
  { nuclide := [2, 2], a_cm := 20, hw := 20, hw_int := 20, hw_coul := 20,
    truncation_int := .pair 10 20, truncation_coul := .pair 10 20,
    basis_mode := .kGeneric, use_coulomb := false,
    hamiltonian := some [("VNN", 1)],
    sp_truncation_mode := .kNmax, mb_truncation_mode := .kNmax,
    truncation_parameters := { Nv := some 0, Nmax := some 2 },
    tbme_sources := some [("VNN", { filename := some "custom-vnn.bin" })],
    interaction := "JISP16", h2_format := 15099 }

/-- Witness for C7. -/
theorem c7_overrides_replace_witness :
    odLookup (tbme_sourcesOf c7_task "" ["VNN"]) "VNN" =
        lookupLast [("VNN",
          ({ filename := some "custom-vnn.bin" } : TwoBodyOperatorSource))] "VNN" ∧
      ∃ s, lookupLast [("VNN",
          ({ filename := some "custom-vnn.bin" } : TwoBodyOperatorSource))] "VNN" =
        some s :=
  c7_overrides_replace c7_task "" ["VNN"]
    [("VNN", { filename := some "custom-vnn.bin" })] "VNN" rfl (by decide)

/-! ## Claim C6: VC_unscaled descriptor by basis mode -/

/-- C6: for every task requiring the VC_unscaled source, the
default-resolution descriptor carries the Coulomb interaction file, carries
no basis-transform data exactly in the direct and dilated basis modes, and
carries the Coulomb transform file plus transform truncation exactly in the
fully general transformed mode. -/
theorem c6_vc_descriptor (task : Task) (pfx : String)
    (hreq : "VC_unscaled" ∈ requiredSourcesOf (targetsOf task)) :
    ∃ d, odLookup (tbme_sources_default task pfx
        (requiredSourcesOf (targetsOf task))) "VC_unscaled" = some d ∧
      d.filename = some (task.coulomb_file.getD
        (environ.interaction_filename "VC" task.truncation_coul task.hw_coul)) ∧
      ((d.xform_filename = none ∧ d.xform_truncation = none) ↔
        (task.basis_mode = BasisMode.kDirect ∨
          task.basis_mode = BasisMode.kDilated)) ∧
      ((d.xform_filename = some (environ.radial_olap_coul_filename pfx) ∧
        d.xform_truncation = some (xform_truncation_coul_of task)) ↔
        task.basis_mode = BasisMode.kGeneric) := by
  have hd : odLookup (tbme_sources_default task pfx
      (requiredSourcesOf (targetsOf task))) "VC_unscaled" =
      some (VC_source task pfx) := by
    simp only [tbme_sources_default]
    rw [if_pos hreq]
    exact odLookup_odInsert_self _ _ _
  refine ⟨VC_source task pfx, hd, ?_, ?_, ?_⟩ <;>
    rcases hb : task.basis_mode with _ | _ | _ <;>
      simp [VC_source, hb]

/-- C6 witness input: the Hamiltonian requires VC_unscaled and the basis
mode is the fully general transformed one. -/
def c6_task : Task :=
  { nuclide := [2, 2], a_cm := 20, hw := 20, hw_int := 20, hw_coul := 20,
    truncation_int := .pair 10 20, truncation_coul := .pair 10 20,
    basis_mode := .kGeneric, use_coulomb := true,
    hamiltonian := some [("VC_unscaled", 1)],
    sp_truncation_mode := .kNmax, mb_truncation_mode := .kNmax,
    truncation_parameters := { Nv := some 0, Nmax := some 2 },
    interaction := "JISP16", h2_format := 15099 }

/-- Witness for C6. -/
theorem c6_vc_descriptor_witness :
    ∃ d, odLookup (tbme_sources_default c6_task ""
        (requiredSourcesOf (targetsOf c6_task))) "VC_unscaled" = some d ∧
      d.filename = some (c6_task.coulomb_file.getD
        (environ.interaction_filename "VC" c6_task.truncation_coul c6_task.hw_coul)) ∧
      ((d.xform_filename = none ∧ d.xform_truncation = none) ↔
        (c6_task.basis_mode = BasisMode.kDirect ∨
          c6_task.basis_mode = BasisMode.kDilated)) ∧
      ((d.xform_filename = some (environ.radial_olap_coul_filename "") ∧
        d.xform_truncation = some (xform_truncation_coul_of c6_task)) ↔
        c6_task.basis_mode = BasisMode.kGeneric) :=
  c6_vc_descriptor c6_task "" (by decide)

/-! ## Claim C3: unresolvable required source-ids -/

theorem odLookup_condInsert_cases {α : Type} (c : Prop) [Decidable c]
    (m : List (String × α)) (k k2 : String) (v s : α)
    (h : odLookup (if c then odInsert m k v else m) k2 = some s) :
    k2 = k ∨ odLookup m k2 = some s := by
  by_cases hc : c
  · rw [if_pos hc] at h
    exact odLookup_odInsert_cases _ _ _ _ _ h
  · rw [if_neg hc] at h
    exact Or.inr h

theorem odLookup_isSome_condInsert {α : Type} (c : Prop) [Decidable c]
    (m : List (String × α)) (k k2 : String) (v : α)
    (h : ∃ s, odLookup m k2 = some s) :
    ∃ s, odLookup (if c then odInsert m k v else m) k2 = some s := by
  by_cases hc : c
  · rw [if_pos hc]
    exact odLookup_isSome_odInsert _ _ _ _ h
  · rw [if_neg hc]
    exact h

/-- Keys of the built-in default block are exactly the sorted required
built-ins. -/
theorem keysOf_builtin_block (order : List String) :
    keysOf ((sortedStrings (operators.k_h2mixer_builtin_operators.filter
        (fun b => decide (b ∈ order)))).map
          (fun id => (id, ({} : TwoBodyOperatorSource)))) =
      sortedStrings (operators.k_h2mixer_builtin_operators.filter
        (fun b => decide (b ∈ order))) := by
  simp only [keysOf, List.map_map]
  exact List.map_id _

/-- Any id the default phase resolves is a built-in, VNN or VC_unscaled. -/
theorem tbme_sources_default_domain (task : Task) (pfx : String)
    (order : List String) (id : String) (s : TwoBodyOperatorSource)
    (h : odLookup (tbme_sources_default task pfx order) id = some s) :
    id ∈ operators.k_h2mixer_builtin_operators ∨ id = "VNN" ∨
      id = "VC_unscaled" := by
  simp only [tbme_sources_default] at h
  rcases odLookup_condInsert_cases _ _ _ _ _ _ h with hid | h1
  · exact Or.inr (Or.inr hid)
  · rcases odLookup_condInsert_cases _ _ _ _ _ _ h1 with hid | h0
    · exact Or.inr (Or.inl hid)
    · left
      rw [odLookup_foldl_odInsert] at h0
      cases hlast : lookupLast ((sortedStrings
          (operators.k_h2mixer_builtin_operators.filter
            (fun b => decide (b ∈ order)))).map
          (fun i => (i, ({} : TwoBodyOperatorSource)))) id with
      | none =>
          rw [hlast] at h0
          simp [orOption, odLookup, List.find?] at h0
      | some v =>
          have hmem := lookupLast_mem_of_isSome _ _ _ hlast
          rw [keysOf_builtin_block] at hmem
          exact (List.mem_filter.mp (mem_sortedStrings.mp hmem)).1

/-- Any id the full resolver holds is a built-in, VNN, VC_unscaled, or an
override id. -/
theorem tbme_sourcesOf_domain (task : Task) (pfx : String)
    (order : List String) (id : String) (s : TwoBodyOperatorSource)
    (h : odLookup (tbme_sourcesOf task pfx order) id = some s) :
    id ∈ operators.k_h2mixer_builtin_operators ∨ id = "VNN" ∨
      id = "VC_unscaled" ∨
      ∃ ovs, task.tbme_sources = some ovs ∧ id ∈ keysOf ovs := by
  unfold tbme_sourcesOf at h
  cases hovs : task.tbme_sources with
  | none =>
      rw [hovs] at h
      rcases tbme_sources_default_domain _ _ _ _ _ h with h1 | h1 | h1
      exacts [Or.inl h1, Or.inr (Or.inl h1), Or.inr (Or.inr (Or.inl h1))]
  | some ovs =>
      rw [hovs] at h
      rw [show odLookup (ovs.foldl (fun m p => odInsert m p.1 p.2)
          (tbme_sources_default task pfx order)) id =
          orOption (lookupLast ovs id)
            (odLookup (tbme_sources_default task pfx order) id) from
        odLookup_foldl_odInsert _ _ _] at h
      cases hlast : lookupLast ovs id with
      | some v =>
          exact Or.inr (Or.inr (Or.inr
            ⟨ovs, rfl, lookupLast_mem_of_isSome _ _ _ hlast⟩))
      | none =>
          rw [hlast] at h
          have h2 : odLookup (tbme_sources_default task pfx order) id = some s := h
          rcases tbme_sources_default_domain _ _ _ _ _ h2 with h1 | h1 | h1
          exacts [Or.inl h1, Or.inr (Or.inl h1), Or.inr (Or.inr (Or.inl h1))]

/-- Conversely, a required built-in, required VNN/VC_unscaled, or any
override id is resolvable by the default phase respectively the full
resolver. -/
theorem tbme_sources_default_present (task : Task) (pfx : String)
    (order : List String) (id : String)
    (h : (id ∈ operators.k_h2mixer_builtin_operators ∧ id ∈ order) ∨
      (id = "VNN" ∧ id ∈ order) ∨ (id = "VC_unscaled" ∧ id ∈ order)) :
    ∃ s, odLookup (tbme_sources_default task pfx order) id = some s := by
  simp only [tbme_sources_default]
  rcases h with ⟨hb, ho⟩ | ⟨rfl, ho⟩ | ⟨rfl, ho⟩
  · apply odLookup_isSome_condInsert
    apply odLookup_isSome_condInsert
    rw [odLookup_foldl_odInsert]
    have hk : id ∈ keysOf ((sortedStrings
        (operators.k_h2mixer_builtin_operators.filter
          (fun b => decide (b ∈ order)))).map
        (fun i => (i, ({} : TwoBodyOperatorSource)))) := by
      rw [keysOf_builtin_block]
      exact mem_sortedStrings.mpr
        (List.mem_filter.mpr ⟨hb, decide_eq_true ho⟩)
    obtain ⟨v, hv⟩ := lookupLast_isSome_of_mem _ _ hk
    rw [hv]
    exact ⟨v, rfl⟩
  · apply odLookup_isSome_condInsert
    rw [if_pos ho]
    exact ⟨_, odLookup_odInsert_self _ _ _⟩
  · rw [if_pos ho]
    exact ⟨_, odLookup_odInsert_self _ _ _⟩

theorem tbme_sources_present (task : Task) (pfx : String)
    (order : List String) (id : String)
    (h : (id ∈ operators.k_h2mixer_builtin_operators ∧ id ∈ order) ∨
      (id = "VNN" ∧ id ∈ order) ∨ (id = "VC_unscaled" ∧ id ∈ order) ∨
      ∃ ovs, task.tbme_sources = some ovs ∧ id ∈ keysOf ovs) :
    ∃ s, odLookup (tbme_sourcesOf task pfx order) id = some s := by
  unfold tbme_sourcesOf
  cases hovs : task.tbme_sources with
  | none =>
      rcases h with h | h | h | ⟨ovs, hovs2, _⟩
      · exact tbme_sources_default_present task pfx order id (Or.inl h)
      · exact tbme_sources_default_present task pfx order id (Or.inr (Or.inl h))
      · exact tbme_sources_default_present task pfx order id (Or.inr (Or.inr h))
      · rw [hovs] at hovs2
        cases hovs2
  | some ovs =>
      show ∃ s, odLookup (ovs.foldl (fun m p => odInsert m p.1 p.2)
        (tbme_sources_default task pfx order)) id = some s
      rw [odLookup_foldl_odInsert]
      cases hlast : lookupLast ovs id with
      | some v => exact ⟨v, rfl⟩
      | none =>
          have hdef : ∃ s, odLookup (tbme_sources_default task pfx order) id =
              some s := by
            rcases h with h | h | h | ⟨ovs2, hovs2, hm⟩
            · exact tbme_sources_default_present task pfx order id (Or.inl h)
            · exact tbme_sources_default_present task pfx order id (Or.inr (Or.inl h))
            · exact tbme_sources_default_present task pfx order id (Or.inr (Or.inr h))
            · rw [hovs] at hovs2
              injection hovs2 with hh
              subst hh
              obtain ⟨v, hv⟩ := lookupLast_isSome_of_mem _ _ hm
              rw [hv] at hlast
              cases hlast
          obtain ⟨s, hs⟩ := hdef
          rw [hs]
          exact ⟨s, rfl⟩

/-- Emission fails at the first id with no descriptor. -/
theorem emit_sources_error_of_missing (ids : List String)
    (srcs : List (String × TwoBodyOperatorSource)) (x : String)
    (hx : x ∈ ids) (hmiss : odLookup srcs x = none) :
    ∃ bad, bad ∈ ids ∧ odLookup srcs bad = none ∧
      emit_sources ids srcs = .error (.keyError bad) := by
  induction ids with
  | nil => cases hx
  | cons id rest ih =>
      cases hlook : odLookup srcs id with
      | none =>
          exact ⟨id, List.mem_cons_self _ _, hlook,
            by unfold emit_sources; rw [hlook]⟩
      | some s =>
          have hxrest : x ∈ rest := by
            rcases List.mem_cons.mp hx with rfl | h
            · rw [hlook] at hmiss
              cases hmiss
            · exact h
          obtain ⟨bad, hmem, hbad, hemit⟩ := ih hxrest
          exact ⟨bad, List.mem_cons_of_mem _ hmem, hbad,
            by unfold emit_sources; rw [hlook, hemit]⟩

/-- C3: for every task in which some required source-id is neither a mixer
built-in, nor VNN, nor VC_unscaled, nor covered by a caller-supplied
override, source resolution fails with an error naming an offending id of
that kind, whose message includes the offending id. -/
theorem c3_unresolvable_source (task : Task) (pfx : String) (id : String)
    (hreq : id ∈ requiredSourcesOf (targetsOf task))
    (hnb : id ∉ operators.k_h2mixer_builtin_operators)
    (hvnn : id ≠ "VNN") (hvc : id ≠ "VC_unscaled")
    (hov : ∀ ovs, task.tbme_sources = some ovs → id ∉ keysOf ovs) :
    ∃ bad, bad ∈ requiredSourcesOf (targetsOf task) ∧
      bad ∉ operators.k_h2mixer_builtin_operators ∧ bad ≠ "VNN" ∧
      bad ≠ "VC_unscaled" ∧
      (∀ ovs, task.tbme_sources = some ovs → bad ∉ keysOf ovs) ∧
      source_lines task pfx = .error (.keyError bad) ∧
      ∃ s1, errMsg (.keyError bad) = s1 ++ bad := by
  have hmiss : odLookup (tbme_sourcesOf task pfx
      (requiredSourcesOf (targetsOf task))) id = none := by
    cases hl : odLookup (tbme_sourcesOf task pfx
        (requiredSourcesOf (targetsOf task))) id with
    | none => rfl
    | some s =>
        rcases tbme_sourcesOf_domain _ _ _ _ _ hl with h | h | h | ⟨ovs, hovs, hm⟩
        · exact absurd h hnb
        · exact absurd h hvnn
        · exact absurd h hvc
        · exact absurd hm (hov ovs hovs)
  obtain ⟨bad, hbmem, hbmiss, hemit⟩ := emit_sources_error_of_missing _ _ id
    (mem_sortedStrings.mpr hreq) hmiss
  have hbreq : bad ∈ requiredSourcesOf (targetsOf task) :=
    mem_sortedStrings.mp hbmem
  refine ⟨bad, hbreq, ?_, ?_, ?_, ?_, hemit, "KeyError: ", rfl⟩
  · intro hmem
    obtain ⟨s, hs⟩ := tbme_sources_present task pfx _ bad (Or.inl ⟨hmem, hbreq⟩)
    rw [hbmiss] at hs
    cases hs
  · intro hEq
    obtain ⟨s, hs⟩ := tbme_sources_present task pfx _ bad
      (Or.inr (Or.inl ⟨hEq, hbreq⟩))
    rw [hbmiss] at hs
    cases hs
  · intro hEq
    obtain ⟨s, hs⟩ := tbme_sources_present task pfx _ bad
      (Or.inr (Or.inr (Or.inl ⟨hEq, hbreq⟩)))
    rw [hbmiss] at hs
    cases hs
  · intro ovs hovs hmem
    obtain ⟨s, hs⟩ := tbme_sources_present task pfx _ bad
      (Or.inr (Or.inr (Or.inr ⟨ovs, hovs, hmem⟩)))
    rw [hbmiss] at hs
    cases hs

/-- C3 witness input: a user observable referencing the unknown source-id
"Vxx" with no override supplied. -/
def c3_task : Task :=
  { nuclide := [2, 2], a_cm := 20, hw := 20, hw_int := 20, hw_coul := 20,
    truncation_int := .pair 10 20, truncation_coul := .pair 10 20,
    basis_mode := .kDirect, use_coulomb := false,
    hamiltonian := some [("VNN", 1)],
    tb_observables := [("extra", [("Vxx", 1)])],
    sp_truncation_mode := .kNmax, mb_truncation_mode := .kNmax,
    truncation_parameters := { Nv := some 0, Nmax := some 2 },
    interaction := "JISP16", h2_format := 15099 }

/-- Witness for C3. -/
theorem c3_unresolvable_source_witness :
    ∃ bad, bad ∈ requiredSourcesOf (targetsOf c3_task) ∧
      bad ∉ operators.k_h2mixer_builtin_operators ∧ bad ≠ "VNN" ∧
      bad ≠ "VC_unscaled" ∧
      (∀ ovs, c3_task.tbme_sources = some ovs → bad ∉ keysOf ovs) ∧
      source_lines c3_task "" = .error (.keyError bad) ∧
      ∃ s1, errMsg (.keyError bad) = s1 ++ bad :=
  c3_unresolvable_source c3_task "" "Vxx" (by decide) (by decide) (by decide)
    (by decide) (fun ovs h => Option.noConfusion h)

/-! ## Claim C4: target blocks -/

/-- C4 (amended): for every task, the compiled script ends with one target
block per target in target-set insertion order followed by the terminal
blank line, where each block is a define-target line followed by one
add-source line per term of that target's operator mapping — regardless of
the coefficient value, so zero-coefficient terms also produce an add-source
line — followed by a blank separator line. -/
theorem c4_target_blocks (task : Task) (pfx : String) (l : List String)
    (h : generate_tbme task pfx = .ok l) :
    ∃ pre, l = pre ++ target_lines pfx (targetsOf task) ++ [""] ∧
      target_lines pfx (targetsOf task) =
        ((targetsOf task).map (fun p =>
          ("define-target work" ++ pfx ++ "/" ++ p.1 ++ ".bin") ::
            (p.2.map (fun q =>
              "  add-source " ++ q.1 ++ " " ++ format_coefficient q.2) ++ [""]))).flatten := by
  obtain ⟨_, twm, srcs, _, _, hl⟩ := generate_ok_iff task pfx l h
  subst hl
  obtain ⟨pre, hpre⟩ := assemble_target_suffix task pfx twm srcs
  exact ⟨pre, hpre, rfl⟩

/-- C4 counterexample input: a user observable with an explicit
zero-coefficient term. -/
def c4_task : Task :=
  { nuclide := [2, 2], a_cm := 20, hw := 20, hw_int := 20, hw_coul := 20,
    truncation_int := .pair 10 20, truncation_coul := .pair 10 20,
    basis_mode := .kDirect, use_coulomb := false,
    hamiltonian := some [("VNN", 1)],
    tb_observables := [("rrel2", [("Ursqr", 1)]), ("Ncm", [("identity", 1)]),
      ("obs", [("L2", 0)])],
    sp_truncation_mode := .kNmax, mb_truncation_mode := .kNmax,
    target_truncation := some (.ob 4),
    interaction := "JISP16", h2_format := 15099 }

/-- C4 counterexample: the target tbme-obs holds the single zero-coefficient
term ("L2", 0), yet the compiled script's target-block region contains an
add-source line for it, refuting the parenthetical "zero-coefficient terms
produce no add-source line". -/
theorem c4_counterexample :
    ∃ l pre, generate_tbme c4_task "" = .ok l ∧
      l = pre ++ target_lines "" (targetsOf c4_task) ++ [""] ∧
      odLookup (targetsOf c4_task) "tbme-obs" = some [("L2", 0)] ∧
      ("  add-source L2 " ++ format_coefficient 0) ∈
        target_lines "" (targetsOf c4_task) := by
  obtain ⟨_, twm, srcs, _, hemit, hl⟩ :=
    generate_ok_iff c4_task "" (okLines (generate_tbme c4_task "")) rfl
  obtain ⟨pre, hpre⟩ := assemble_target_suffix c4_task "" twm srcs
  refine ⟨okLines (generate_tbme c4_task ""), pre, rfl, by rw [hl, hpre], ?_, ?_⟩
  · decide
  · decide

/-- Witness for C4's amended theorem. -/
theorem c4_target_blocks_witness :
    ∃ pre, okLines (generate_tbme c4_task "") =
        pre ++ target_lines "" (targetsOf c4_task) ++ [""] ∧
      target_lines "" (targetsOf c4_task) =
        ((targetsOf c4_task).map (fun p =>
          ("define-target work" ++ "" ++ "/" ++ p.1 ++ ".bin") ::
            (p.2.map (fun q =>
              "  add-source " ++ q.1 ++ " " ++ format_coefficient q.2) ++ [""]))).flatten :=
  c4_target_blocks c4_task "" (okLines (generate_tbme c4_task "")) rfl

/-! ## Claim C9: determinism -/

/-- C9: the compiled line sequence is a deterministic function of the task
and postfix alone: any two runs, differing arbitrarily in how the
required-source set is enumerated (the one ordering Python does not fix),
produce identical line sequences, equal to the canonical compiled script.
The model has no clock input, so no time-stamped content can occur. -/
theorem c9_deterministic (task : Task) (pfx : String) (o1 o2 : List String)
    (h1 : List.Perm o1 (requiredSourcesOf (targetsOf task)))
    (h2 : List.Perm o2 (requiredSourcesOf (targetsOf task))) :
    generate_tbme_with_order task pfx o1 = generate_tbme_with_order task pfx o2 ∧
      generate_tbme_with_order task pfx o1 = generate_tbme task pfx := by
  have key : ∀ oa ob : List String, List.Perm oa ob →
      generate_tbme_with_order task pfx oa = generate_tbme_with_order task pfx ob := by
    intro oa ob hperm
    have hsort : sortedStrings oa = sortedStrings ob :=
      sortedStrings_eq_of_perm hperm
    have hsrc : tbme_sourcesOf task pfx oa = tbme_sourcesOf task pfx ob := by
      unfold tbme_sourcesOf tbme_sources_default
      simp only [hperm.mem_iff]
    unfold generate_tbme_with_order
    rw [hsort, hsrc]
  exact ⟨key o1 o2 (h1.trans h2.symm), key o1 _ h1⟩

/-- C9 witness input. -/
def c9_task : Task :=
  { nuclide := [2, 2], a_cm := 20, hw := 20, hw_int := 20, hw_coul := 20,
    truncation_int := .pair 10 20, truncation_coul := .pair 10 20,
    basis_mode := .kDirect, use_coulomb := false,
    hamiltonian := some [("VNN", 1)],
    tb_observables := [("rrel2", [("Ursqr", 1)]), ("Ncm", [("identity", 1)])],
    sp_truncation_mode := .kNmax, mb_truncation_mode := .kNmax,
    target_truncation := some (.pair 6 6),
    interaction := "JISP16", h2_format := 15099 }

/-- Witness for C9: two enumeration orders of the same required-source set. -/
theorem c9_deterministic_witness :
    generate_tbme_with_order c9_task "" ["VNN", "Ursqr", "identity"] =
        generate_tbme_with_order c9_task "" ["identity", "VNN", "Ursqr"] ∧
      generate_tbme_with_order c9_task "" ["VNN", "Ursqr", "identity"] =
        generate_tbme c9_task "" :=
  c9_deterministic c9_task "" ["VNN", "Ursqr", "identity"]
    ["identity", "VNN", "Ursqr"] (by decide) (by decide)

/-! ## Claim C10: derived targets added only when absent -/

theorem odLookup_condInsertList (t : List (String × Operator))
    (steps : List (Bool × String × Operator)) (key : String)
    (h : ∀ s ∈ steps, key ≠ s.2.1) :
    odLookup (condInsertList t steps) key = odLookup t key := by
  induction steps generalizing t with
  | nil => rfl
  | cons s rest ih =>
      show odLookup (condInsertList
        (if s.1 = true then odInsert t s.2.1 s.2.2 else t) rest) key = _
      rw [ih _ (fun x hx => h x (List.mem_cons_of_mem _ hx))]
      cases hs : s.1
      · rw [if_neg (by simp)]
      · rw [if_pos rfl,
          odLookup_odInsert_ne _ _ _ _ (h s (List.mem_cons_self _ _))]

theorem keysOf_condInsertList (t : List (String × Operator))
    (steps : List (Bool × String × Operator)) :
    ∃ suf, keysOf (condInsertList t steps) = keysOf t ++ suf ∧
      ∀ x ∈ suf, ∃ s ∈ steps, x = s.2.1 := by
  induction steps generalizing t with
  | nil => exact ⟨[], by simp [condInsertList], by simp⟩
  | cons s rest ih =>
      obtain ⟨s1, e1, p1⟩ := keysOf_condInsert (s.1 = true) t s.2.1 s.2.2
      obtain ⟨s2, e2, p2⟩ :=
        ih (if s.1 = true then odInsert t s.2.1 s.2.2 else t)
      refine ⟨s1 ++ s2, ?_, ?_⟩
      · show keysOf (condInsertList
          (if s.1 = true then odInsert t s.2.1 s.2.2 else t) rest) = _
        rw [e2, e1, List.append_assoc]
      · intro x hx
        rcases List.mem_append.mp hx with hx | hx
        · exact ⟨s, List.mem_cons_self _ _, p1 x hx⟩
        · obtain ⟨sm, hm, hxeq⟩ := p2 x hx
          exact ⟨sm, List.mem_cons_of_mem _ hm, hxeq⟩

/-- The keys assigned by the observable-set phase, a fixed literal list. -/
theorem observable_steps_keys (task : Task) :
    (observable_steps task).map (fun s => s.2.1) =
      ["tbme-Trel", "tbme-Tcm", "tbme-VNN", "tbme-VC", "tbme-L2", "tbme-Sp2",
       "tbme-Sn2", "tbme-S2", "tbme-J2", "tbme-T2"] := rfl

/-- The observable-set phase never touches the tbme-rrel2 or tbme-Ncm keys. -/
theorem odLookup_observable_phase (task : Task) (t : List (String × Operator))
    (key : String) (hk : key = "tbme-rrel2" ∨ key = "tbme-Ncm") :
    odLookup (observable_phase task t) key = odLookup t key := by
  apply odLookup_condInsertList
  intro s hs hEq
  have hxin : key ∈ (observable_steps task).map (fun s => s.2.1) :=
    List.mem_map.mpr ⟨s, hs, hEq.symm⟩
  rw [observable_steps_keys] at hxin
  rcases hk with rfl | rfl <;> exact absurd hxin (by decide)

theorem keysOf_observable_phase (task : Task) (t : List (String × Operator)) :
    ∃ suf, keysOf (observable_phase task t) = keysOf t ++ suf ∧
      ∀ x ∈ suf, x ≠ "tbme-rrel2" ∧ x ≠ "tbme-Ncm" := by
  obtain ⟨suf, he, hp⟩ := keysOf_condInsertList t (observable_steps task)
  refine ⟨suf, he, ?_⟩
  intro x hx
  obtain ⟨s, hs, rfl⟩ := hp x hx
  have hxin : s.2.1 ∈ (observable_steps task).map (fun s => s.2.1) :=
    List.mem_map.mpr ⟨s, hs, rfl⟩
  rw [observable_steps_keys] at hxin
  constructor
  · intro hEq
    rw [hEq] at hxin
    exact absurd hxin (by decide)
  · intro hEq
    rw [hEq] at hxin
    exact absurd hxin (by decide)

/-- The derived phase does not move or overwrite a derived key that is
already present. -/
theorem odLookup_derived_phase (task : Task) (t : List (String × Operator))
    (key : String) (hk : key = "tbme-rrel2" ∨ key = "tbme-Ncm")
    (hc : odContains t key = true) :
    odLookup (derived_phase task t) key = odLookup t key := by
  unfold derived_phase
  rcases hk with rfl | rfl
  · rw [if_pos hc]
    by_cases h2 : odContains t "tbme-Ncm"
    · rw [if_pos h2]
    · rw [if_neg h2, odLookup_odInsert_ne _ _ _ _ (by decide)]
  · by_cases h1 : odContains t "tbme-rrel2"
    · rw [if_pos h1, if_pos hc]
    · rw [if_neg h1, if_pos (odContains_odInsert _ _ _ _ hc),
        odLookup_odInsert_ne _ _ _ _ (by decide)]

theorem keysOf_derived_phase (task : Task) (t : List (String × Operator))
    (key : String) (hk : key = "tbme-rrel2" ∨ key = "tbme-Ncm")
    (hc : odContains t key = true) :
    ∃ suf, keysOf (derived_phase task t) = keysOf t ++ suf ∧ key ∉ suf := by
  unfold derived_phase
  rcases hk with rfl | rfl
  · rw [if_pos hc]
    by_cases h2 : odContains t "tbme-Ncm"
    · rw [if_pos h2]
      exact ⟨[], by simp, by simp⟩
    · rw [if_neg h2, keysOf_odInsert, if_neg h2]
      exact ⟨["tbme-Ncm"], rfl, by decide⟩
  · by_cases h1 : odContains t "tbme-rrel2"
    · rw [if_pos h1, if_pos hc]
      exact ⟨[], by simp, by simp⟩
    · rw [if_neg h1, if_pos (odContains_odInsert _ _ _ _ hc),
        keysOf_odInsert, if_neg h1]
      exact ⟨["tbme-rrel2"], rfl, by decide⟩

/-- Lookup in the user phase is the last user binding (the Hamiltonian slot
is keyed tbme-H and cannot capture a different key). -/
theorem odLookup_base_targets (task : Task) (key : String)
    (hne : key ≠ "tbme-H") :
    odLookup (base_targets task) key = lookupLast (user_entries task) key := by
  unfold base_targets
  rw [odLookup_foldl_odInsert]
  have hm0 : odLookup (odInsert ([] : List (String × Operator)) "tbme-H"
      (hamiltonian_of task)) key = none := by
    show odLookup [("tbme-H", hamiltonian_of task)] key = none
    simp [odLookup, List.find?,
      show ("tbme-H" == key) = false from
        beq_eq_false_iff_ne.mpr (fun hh => hne hh.symm)]
  rw [hm0]
  cases lookupLast (user_entries task) key <;> rfl

theorem odContains_base_targets (task : Task) (key : String)
    (hne : key ≠ "tbme-H") (hmem : key ∈ keysOf (user_entries task)) :
    odContains (base_targets task) key = true := by
  obtain ⟨v, hv⟩ := lookupLast_isSome_of_mem _ _ hmem
  have h := odLookup_base_targets task key hne
  rw [hv] at h
  exact odContains_of_odLookup _ _ _ h

/-- C10: for every task with a user tb_observable of basename "rrel2" or
"Ncm", the final target set holds the user's operator for that key (the
default derived operator is not added and does not overwrite it), the key
already appears in the user phase, and all keys added after the user phase
are appended strictly behind it and never equal to it — so the user entry
keeps its earlier insertion position in the target order. -/
theorem c10_user_replaces_derived (task : Task) (b : String)
    (hb : b = "rrel2" ∨ b = "Ncm")
    (hmem : b ∈ task.tb_observables.map Prod.fst) :
    odLookup (targetsOf task) ("tbme-" ++ b) =
        lookupLast (user_entries task) ("tbme-" ++ b) ∧
      ("tbme-" ++ b) ∈ keysOf (base_targets task) ∧
      ∃ suf, keysOf (targetsOf task) = keysOf (base_targets task) ++ suf ∧
        ("tbme-" ++ b) ∉ suf := by
  have hk : "tbme-" ++ b = "tbme-rrel2" ∨ "tbme-" ++ b = "tbme-Ncm" := by
    rcases hb with rfl | rfl
    · exact Or.inl rfl
    · exact Or.inr rfl
  have hne : "tbme-" ++ b ≠ "tbme-H" := by
    rcases hb with rfl | rfl <;> decide
  have hkeymem : "tbme-" ++ b ∈ keysOf (user_entries task) := by
    obtain ⟨p, hp, hpb⟩ := List.mem_map.mp hmem
    unfold user_entries keysOf
    rw [List.map_map]
    exact List.mem_map.mpr ⟨p, hp, by
      show "tbme-" ++ p.1 = "tbme-" ++ b
      rw [hpb]⟩
  have hcont : odContains (base_targets task) ("tbme-" ++ b) = true :=
    odContains_base_targets task _ hne hkeymem
  have hlook : odLookup (targetsOf task) ("tbme-" ++ b) =
      lookupLast (user_entries task) ("tbme-" ++ b) := by
    unfold targetsOf
    rw [odLookup_observable_phase task _ _ hk,
      odLookup_derived_phase task _ _ hk hcont,
      odLookup_base_targets task _ hne]
  refine ⟨hlook, (odContains_iff _ _).mp hcont, ?_⟩
  obtain ⟨s1, e1, hnot1⟩ := keysOf_derived_phase task (base_targets task) _ hk hcont
  obtain ⟨s2, e2, hp2⟩ :=
    keysOf_observable_phase task (derived_phase task (base_targets task))
  refine ⟨s1 ++ s2, ?_, ?_⟩
  · unfold targetsOf
    rw [e2, e1, List.append_assoc]
  · intro hx
    rcases List.mem_append.mp hx with hx | hx
    · exact hnot1 hx
    · rcases hk with hkey | hkey
      · exact absurd hkey (hp2 _ hx).1
      · exact absurd hkey (hp2 _ hx).2

/-- C10 witness input: a user observable with basename "rrel2" plus extra
observable sets that append further targets behind it. -/
def c10_task : Task :=
  { nuclide := [2, 2], a_cm := 20, hw := 20, hw_int := 20, hw_coul := 20,
    truncation_int := .pair 10 20, truncation_coul := .pair 10 20,
    basis_mode := .kDirect, use_coulomb := false,
    hamiltonian := some [("VNN", 1)],
    tb_observables := [("rrel2", [("Ursqr", 2)])],
    observable_sets := ["am-sqr"],
    sp_truncation_mode := .kNmax, mb_truncation_mode := .kNmax,
    target_truncation := some (.pair 6 6),
    interaction := "JISP16", h2_format := 15099 }

/-- Witness for C10. -/
theorem c10_user_replaces_derived_witness :
    odLookup (targetsOf c10_task) ("tbme-" ++ "rrel2") =
        lookupLast (user_entries c10_task) ("tbme-" ++ "rrel2") ∧
      ("tbme-" ++ "rrel2") ∈ keysOf (base_targets c10_task) ∧
      ∃ suf, keysOf (targetsOf c10_task) = keysOf (base_targets c10_task) ++ suf ∧
        ("tbme-" ++ "rrel2") ∉ suf :=
  c10_user_replaces_derived c10_task "rrel2" (Or.inl rfl) (by decide)

end NcciTbme
